import Mathlib

/-!
Verification of the conversational-persona engine (Telegram "digital persona"
automation).  The definitions below are a shallow embedding of the Python
sources:

* `src/core/data_storage.py`   — per-thread durable store (`load_chat_history`,
  `append_message_to_history`);
* `src/core/elo_calculator.py` — the scoring engine (`calculate_elo`,
  `get_top_chat_for_initiation`, the interest-keyword extraction and caches);
* `src/core/interaction.py`    — the detection/cooldown state machine in
  `_handle_new_message` / `_check_ai_detection`, the response pipeline
  `_generate_and_send_response` and the initiation gate
  `_try_initiate_conversation`.

Timestamps are modelled as integers (seconds); real-number scores use `ℝ`,
with the natural logarithm passed in as an explicit function argument `rlog`
so that every definition stays computable (theorems instantiate `rlog` with
`Real.log`).  Strings are manipulated as `List Char`, matching Python's
per-character string operations.
-/

namespace Persona

/-! ## Character and string helpers (Python `str.lower`, `str.strip`,
`str.split`, substring search and `re` word boundaries)

Python's `str.lower()` and case-insensitive regexes act on the full Unicode
tables; the texts this program manipulates are ASCII and Russian Cyrillic, so
the embedding lowers exactly those two alphabets.  Python's `\w` (`re`
word character) is likewise modelled on those alphabets plus digits and
underscore. -/

/-- Lower-case a character: ASCII `A`–`Z` and Cyrillic `А`–`Я`, `Ё`
(mirrors `str.lower()` on the alphabets the program uses). -/
def lowerChar (c : Char) : Char :=
  if 'A' ≤ c ∧ c ≤ 'Z' then Char.ofNat (c.toNat + 32)
  else if 'А' ≤ c ∧ c ≤ 'Я' then Char.ofNat (c.toNat + 32)
  else if c = 'Ё' then 'ё'
  else c

/-- Lower-case a string given as a character list. -/
def lowerL (s : List Char) : List Char := s.map lowerChar

/-- Word character for the `re` patterns (`\w`): ASCII alphanumeric,
underscore, or Cyrillic. -/
def isWordChar (c : Char) : Bool :=
  c.isAlphanum || c = '_' || ('А' ≤ c ∧ c ≤ 'я') || c = 'ё' || c = 'Ё'

/-- Whether position `i` of `s` holds a word character (`false` out of
range). -/
def isWordAt (s : List Char) (i : Nat) : Bool :=
  match s.get? i with
  | some c => isWordChar c
  | none => false

/-- `re` word boundary `\b` between positions `i-1` and `i` (positions run
from `0` to `s.length`): exactly one side is a word character. -/
def wordBoundary (s : List Char) (i : Nat) : Bool :=
  (if i = 0 then false else isWordAt s (i - 1)) != isWordAt s i

/-- The pattern `\b p \b` (with `p` a literal, as produced by `re.escape`)
matches `s` at index `i`. -/
def matchesAt (p s : List Char) (i : Nat) : Bool :=
  ((s.drop i).take p.length == p) && wordBoundary s i && wordBoundary s (i + p.length)

/-- Fuel-driven left-to-right scan counting non-overlapping matches of
`\b p \b`, continuing after the end of each match — the semantics of
`re.findall` on a literal pattern wrapped in word boundaries. -/
def scanCountAux (p s : List Char) : Nat → Nat → Nat
  | 0, _ => 0
  | fuel + 1, i =>
    if i + p.length ≤ s.length then
      if matchesAt p s i then 1 + scanCountAux p s fuel (i + max 1 p.length)
      else scanCountAux p s fuel (i + 1)
    else 0

/-- `len(re.findall(r"\b" + re.escape(p) + r"\b", s))`. -/
def countWordMatches (p s : List Char) : Nat :=
  scanCountAux p s (s.length + 1) 0

/-- First index at which `needle` occurs in `hay` as a plain substring
(`re.search` on an escaped literal / Python `in`). -/
def findSub (needle : List Char) : List Char → Option Nat
  | [] => if needle = [] then some 0 else none
  | c :: rest =>
    if needle.isPrefixOf (c :: rest) then some 0
    else (findSub needle rest).map (· + 1)

/-- Python `needle in hay`. -/
def containsSub (needle hay : List Char) : Bool :=
  (findSub needle hay).isSome

/-- Python `str.strip()`. -/
def stripL (s : List Char) : List Char :=
  ((s.dropWhile Char.isWhitespace).reverse.dropWhile Char.isWhitespace).reverse

/-- Python `str.split(",")`. -/
def splitOnComma : List Char → List (List Char)
  | [] => [[]]
  | c :: rest =>
    let r := splitOnComma rest
    if c = ',' then [] :: r
    else
      match r with
      | [] => [[c]]
      | h :: t => (c :: h) :: t

/-- Keep the first occurrence of each element (models collecting values into
a Python `set`, which only membership matters for). -/
def dedupFirst : List (List Char) → List (List Char)
  | [] => []
  | x :: xs => x :: dedupFirst (xs.filter (fun y => ¬ y == x))
termination_by l => l.length
decreasing_by
  simp only [List.length_cons]
  exact Nat.lt_succ_of_le (List.length_filter_le _ _)

/-- Python `" ".join(l)`. -/
def joinSpace : List (List Char) → List Char
  | [] => []
  | [x] => x
  | x :: y :: rest => x ++ ' ' :: joinSpace (y :: rest)

/-! ## Data model (`data_storage.py`, persisted per-thread document)

A stored message dictionary as built by `_format_message_data`
(`data_collector.py`) and `_send_message_with_delay` (`interaction.py`).
Timestamps (ISO-8601 UTC strings in the file, totally ordered) are modelled
as integer epoch seconds. -/

structure MessageRecord where
  message_id : Int
  sender : String
  timestamp : Int
  text : String
  is_forward : Bool
  forward_source : Option String
  reply_to_message_id : Option Int
  media_attached : Bool
  photo_attached : Bool
deriving DecidableEq

/-- The `aggregated_stats` dictionary over `STATS_KEYS = ["text", "photo",
"video", "voice", "other_media"]`. -/
structure AggregatedStats where
  text : Nat
  photo : Nat
  video : Nat
  voice : Nat
  other_media : Nat
deriving DecidableEq

/-- The per-thread document `{chat_id, chat_title, aggregated_stats,
messages}`. -/
structure ChatHistory where
  chat_id : Int
  chat_title : String
  aggregated_stats : AggregatedStats
  messages : List MessageRecord
deriving DecidableEq

def zeroStats : AggregatedStats := ⟨0, 0, 0, 0, 0⟩

/-- The `default_structure` built at the top of `load_chat_history`. -/
def defaultStructure (chatId : Int) : ChatHistory :=
  { chat_id := chatId
    chat_title := "Unknown Chat " ++ toString chatId
    aggregated_stats := zeroStats
    messages := [] }

/-! ## `load_chat_history` (claim C6)

The on-disk file for a thread either does not exist, fails `json.load`
(corrupt), or parses to a JSON object whose fields may individually be
missing — the function repairs missing fields.  `load_chat_history` handles
all three cases by returning a value; no exception escapes the function
(the `json.JSONDecodeError` and blanket `except Exception` handlers both
return a default structure). -/

/-- A parsed JSON stats object: each of the five keys may be absent. -/
structure RawStats where
  text : Option Nat
  photo : Option Nat
  video : Option Nat
  voice : Option Nat
  other_media : Option Nat
deriving DecidableEq

/-- A parsed JSON history object with possibly-missing fields. -/
structure RawHistory where
  chat_id : Option Int
  chat_title : Option String
  aggregated_stats : Option RawStats
  messages : Option (List MessageRecord)
deriving DecidableEq

/-- State of the stored file for one thread. -/
inductive StoredFile
  | missing
  | corrupt
  | valid (data : RawHistory)
deriving DecidableEq

/-- `for key in STATS_KEYS: if key not in data["aggregated_stats"]:
data["aggregated_stats"][key] = 0`. -/
def fillStats (r : RawStats) : AggregatedStats :=
  { text := r.text.getD 0
    photo := r.photo.getD 0
    video := r.video.getD 0
    voice := r.voice.getD 0
    other_media := r.other_media.getD 0 }

/-- `load_chat_history(chat_id, data_dir)`: missing file → default
structure; corrupt file → default structure with the error-marked title;
valid file → field-repaired record.  (`chat_dir.name` is `str(chat_id)`,
which is never empty, so the title fallback for a valid file is
`str(chat_id)`.)  The function is total: it never raises. -/
def load_chat_history (chatId : Int) (f : StoredFile) : ChatHistory :=
  match f with
  | .missing => defaultStructure chatId
  | .corrupt =>
    { defaultStructure chatId with chat_title := "Error Loading Chat " ++ toString chatId }
  | .valid d =>
    { chat_id := d.chat_id.getD chatId
      chat_title := d.chat_title.getD (toString chatId)
      aggregated_stats := (d.aggregated_stats.map fillStats).getD zeroStats
      messages := d.messages.getD [] }

/-! ## `append_message_to_history` (claims C2, C7)

The mutation of the in-memory record performed by
`append_message_to_history` between the load and the write-back.  The
duplicate check runs only when `msg_id and msg_id > 0`, i.e. only for
strictly positive message ids; the `text` counter is bumped when the
message's text is truthy (non-empty) and the `photo` counter when
`photo_attached` is truthy. -/

def append_message_to_history (hist : ChatHistory) (msg : MessageRecord) : ChatHistory :=
  if 0 < msg.message_id ∧ hist.messages.any (fun m => m.message_id == msg.message_id) then
    hist
  else
    let s0 := hist.aggregated_stats
    let s1 := if msg.text ≠ "" then { s0 with text := s0.text + 1 } else s0
    let s2 := if msg.photo_attached then { s1 with photo := s1.photo + 1 } else s1
    { hist with messages := hist.messages ++ [msg], aggregated_stats := s2 }

/-- Number of stored messages with (truthy) text. -/
def textCount (msgs : List MessageRecord) : Nat :=
  (msgs.filter (fun m => m.text ≠ "")).length

/-- Number of stored messages with a photo attached. -/
def photoCount (msgs : List MessageRecord) : Nat :=
  (msgs.filter (fun m => m.photo_attached)).length

/-- No strictly positive message id occurs twice. -/
def UniquePosIds (h : ChatHistory) : Prop :=
  ∀ k : Int, 0 < k → (h.messages.filter (fun m => m.message_id == k)).length ≤ 1

/-- The `text` and `photo` counters agree with the stored messages, and the
remaining counters are untouched relative to the given baseline. -/
def CountersOk (h : ChatHistory) : Prop :=
  h.aggregated_stats.text = textCount h.messages ∧
  h.aggregated_stats.photo = photoCount h.messages

/-! ## Scoring engine (`elo_calculator.py`)

`calculate_elo` is deterministic in: the loaded record, whether the chat id
is in the admin priority list (`_get_manual_boost`) and the persona interest
keywords (`_get_persona_interests`).  The natural logarithm `math.log` is
passed in as `rlog : ℝ → ℝ` so the definitions stay computable; theorems
instantiate it with `Real.log`. -/

/-- `_calculate_history_score`: for each of the five stats keys, add
`weight * log(count + 1)` when the count is positive
(`HISTORY_SCORE_WEIGHTS`, `USE_LOGARITHMIC_HISTORY_SCORE = True`). -/
def historyScore (rlog : ℝ → ℝ) (stats : AggregatedStats) : ℝ :=
  (if 0 < stats.text then 0.5 * rlog ((stats.text : ℝ) + 1) else 0)
  + (if 0 < stats.photo then 1.0 * rlog ((stats.photo : ℝ) + 1) else 0)
  + (if 0 < stats.video then 1.2 * rlog ((stats.video : ℝ) + 1) else 0)
  + (if 0 < stats.voice then 1.5 * rlog ((stats.voice : ℝ) + 1) else 0)
  + (if 0 < stats.other_media then 0.2 * rlog ((stats.other_media : ℝ) + 1) else 0)

/-- The spec formula `Σ over kind k of weight(k) * ln(count_k + 1)` without
the positive-count guard, for comparison with `historyScore`. -/
def specHistoryScore (rlog : ℝ → ℝ) (stats : AggregatedStats) : ℝ :=
  0.5 * rlog ((stats.text : ℝ) + 1)
  + 1.0 * rlog ((stats.photo : ℝ) + 1)
  + 1.2 * rlog ((stats.video : ℝ) + 1)
  + 1.5 * rlog ((stats.voice : ℝ) + 1)
  + 0.2 * rlog ((stats.other_media : ℝ) + 1)

/-- The lower-cased texts of the stored non-self messages, in order
(`sender != "You" and msg.get("text")` in `_calculate_interest_bonus`). -/
def contactTexts (msgs : List MessageRecord) : List (List Char) :=
  (msgs.filter (fun m => m.sender ≠ "You" ∧ m.text ≠ "")).map (fun m => lowerL m.text.data)

/-- Total whole-word match count of the interest keywords over
`" ".join(contact_messages_text)`. -/
def interestMatchCount (interests : List (List Char)) (msgs : List MessageRecord) : Nat :=
  (interests.map (fun kw => countWordMatches kw (joinSpace (contactTexts msgs)))).sum

/-- `_calculate_interest_bonus`: early return `0.0` when the interest set,
the message list, or the list of non-self texts is empty; otherwise
`min(match_count * 5.0, 100.0)` (`INTEREST_BONUS_PER_MATCH = 5.0`,
`MAX_INTEREST_BONUS = 100.0`). -/
def interestBonus (msgs : List MessageRecord) (interests : List (List Char)) : ℝ :=
  if interests = [] then 0
  else if msgs = [] then 0
  else if contactTexts msgs = [] then 0
  else min ((interestMatchCount interests msgs : ℝ) * 5) 100

/-- `_get_manual_boost`: `MANUAL_BOOST_VALUE = 500.0` when the chat id is in
`priority_initiation_chats`, else `0.0`; `isPriority` stands for
`chat_id in priority_chats`. -/
def manualBoost (isPriority : Bool) : ℝ :=
  if isPriority then 500 else 0

/-- `calculate_elo` on the loaded record: with no stored messages only the
manual boost is returned; otherwise
`history_score + interest_bonus + manual_boost`.  (The `FileNotFoundError`
handler is dead code — `load_chat_history` returns a default record instead
of raising — and the cache only replays previously computed values.) -/
def calculate_elo (rlog : ℝ → ℝ) (hist : ChatHistory) (isPriority : Bool)
    (interests : List (List Char)) : ℝ :=
  if hist.messages = [] then manualBoost isPriority
  else
    historyScore rlog hist.aggregated_stats
      + interestBonus hist.messages interests
      + manualBoost isPriority

/-! ## `get_top_chat_for_initiation` (claim C3)

The ranking is modelled parametrically in the per-id scoring outcome
`score : Int → Option α` (`none` models `calculate_elo` raising — the
`asyncio.gather(..., return_exceptions=True)` result being an exception —
which the loop replaces by `0.0`).  Scores land in a Python dict keyed by
chat id in first-insertion order, and `max(elo_scores, key=elo_scores.get)`
returns the first key attaining the maximal value. -/

/-- Python `d[k] = v` on an insertion-ordered dict modelled as an
association list: overwrite in place if the key exists, else append. -/
def dictInsert {α : Type} (m : List (Int × α)) (k : Int) (v : α) : List (Int × α) :=
  if m.any (fun p => p.1 == k) then m.map (fun p => if p.1 == k then (k, v) else p)
  else m ++ [(k, v)]

/-- The `for chat_id, result in zip(eligible_chat_ids, results)` loop filling
`elo_scores`, with failures replaced by `0`. -/
def buildScores {α : Type} [Zero α] (score : Int → Option α) :
    List Int → List (Int × α) → List (Int × α)
  | [], acc => acc
  | i :: rest, acc => buildScores score rest (dictInsert acc i ((score i).getD 0))

/-- `max(d, key=d.get)` together with the looked-up value: the first entry
whose value is maximal (later entries replace the current best only on a
strictly greater value). -/
def dictArgmax {α : Type} [LinearOrder α] : List (Int × α) → Option (Int × α)
  | [] => none
  | p :: rest => some (rest.foldl (fun best q => if best.2 < q.2 then q else best) p)

/-- `get_top_chat_for_initiation(eligible_chat_ids)`: `None` on an empty
candidate list; otherwise the first-inserted key with the maximal score,
unless that maximal score is `≤ 0`, in which case `None`. -/
def get_top_chat_for_initiation {α : Type} [LinearOrder α] [Zero α]
    (score : Int → Option α) (ids : List Int) : Option Int :=
  if ids = [] then none
  else
    match dictArgmax (buildScores score ids []) with
    | none => none
    | some (k, v) => if v ≤ 0 then none else some k

/-! ## Interest extraction and the score cache (claim C10)

`_extract_interests_from_instructions` searches the base instructions for
the marker `"Ключевые интересы:"` case-insensitively
(`re.search(r"Ключевые интересы:\s*(.*)", ..., re.IGNORECASE | re.DOTALL)`),
takes everything after it, splits on commas, strips and lower-cases each
piece and collects the non-empty results into a set. -/

def interestsMarker : List Char := lowerL "Ключевые интересы:".data

/-- `_extract_interests_from_instructions(base_instructions)`. -/
def extract_interests_from_instructions (base : List Char) : List (List Char) :=
  match findSub interestsMarker (lowerL base) with
  | none => []
  | some i =>
    let rest := base.drop (i + interestsMarker.length)
    dedupFirst (((splitOnComma (stripL rest)).map
      (fun t => lowerL (stripL t))).filter (fun t => t ≠ []))

/-- The mutable state of `EloCalculator`: the per-id score cache
`_elo_cache` and the cached keyword set `_persona_interests`. -/
structure EloCacheState where
  elo_cache : List (Int × ℝ)
  persona_interests : Option (List (List Char))

/-- `clear_cache`: empties `_elo_cache` and resets `_persona_interests` to
`None`. -/
def clear_cache (_s : EloCacheState) : EloCacheState :=
  { elo_cache := [], persona_interests := none }

/-- `_get_persona_interests(base_instructions)`: reuse the cached set when
present; otherwise derive it — the empty set when the instructions are
falsy (`None`/empty), else by extraction — and cache it.  Returns the set
together with the updated state. -/
def get_persona_interests (s : EloCacheState) (base : List Char) :
    List (List Char) × EloCacheState :=
  match s.persona_interests with
  | some ints => (ints, s)
  | none =>
    if base = [] then ([], { s with persona_interests := some [] })
    else
      let ints := extract_interests_from_instructions base
      (ints, { s with persona_interests := some ints })

/-! ## Detection / cooldown state machine (claim C1)

`_handle_new_message` keeps, per thread, a detection counter
(`_ai_detection_counters`) and an optional cooldown deadline
(`_cooldown_until`); `_check_ai_detection` implements the transitions.  The
step below models, for one thread, the handler from its cooldown check
onwards, for an inbound event that passed the global guards (persona
active, not from self, chat not excluded).  Randomness is made explicit:
`drawDur` is the drawn `uniform(min, max hours)` cooldown duration and
`genResult`/`canned` are the language-model outcome and the drawn canned
reply used by the deflection branch. -/

def AI_DETECTION_KEYWORDS : List (List Char) :=
  ["ты бот".data, "ты ии".data, "ты ai".data, "автоответчик".data]

def AI_DETECTION_ATTEMPTS : Nat := 3

/-- `any(keyword in text_lower for keyword in AI_DETECTION_KEYWORDS)`. -/
def detectionTriggered (text : List Char) : Bool :=
  AI_DETECTION_KEYWORDS.any (fun kw => containsSub kw (lowerL text))

/-- Per-thread runtime state relevant to detection. -/
structure DetectionState where
  detection_count : Nat
  cooldown_until : Option Int
deriving DecidableEq

/-- What the handler did with the inbound event. -/
inductive InboundOutcome
  | ignored
  | deflected (reply : String)
  | suppressed (cooldownUntil : Int)
  | proceeded
deriving DecidableEq

/-- The reply text used by the deflection branch of `_check_ai_detection`:
with base instructions available, the generated text when it is truthy,
otherwise a random canned reply from `generic_error_replies`; without base
instructions, directly a random canned reply. -/
def deflectionReply (hasInstructions : Bool) (genResult : Option String)
    (canned : String) : String :=
  if hasInstructions then
    match genResult with
    | some t => if t = "" then canned else t
    | none => canned
  else canned

/-- `_check_ai_detection(chat_id, message)` for a text message, combined
with the branch structure of `_handle_new_message`: no keyword → fall
through to ordinary handling; keyword with the incremented counter still at
most `AI_DETECTION_ATTEMPTS` → deflection reply, no cooldown; above the
threshold → cooldown until `now + drawDur` and an operator notification
(the `suppressed` outcome). -/
def detectStep (now : Int) (text : Option (List Char)) (hasInstructions : Bool)
    (genResult : Option String) (canned : String) (drawDur : Int)
    (s : DetectionState) : DetectionState × InboundOutcome :=
  match text with
  | none => (s, .proceeded)
  | some t =>
    if detectionTriggered t then
      let n := s.detection_count + 1
      if n ≤ AI_DETECTION_ATTEMPTS then
        ({ s with detection_count := n },
          .deflected (deflectionReply hasInstructions genResult canned))
      else
        ({ detection_count := n, cooldown_until := some (now + drawDur) },
          .suppressed (now + drawDur))
    else (s, .proceeded)

/-- `_handle_new_message` from the cooldown check onwards: an active
cooldown (`now < until`) drops the event; an expired one is popped together
with the detection counter before the detection check runs on the same
event. -/
def handleInbound (now : Int) (text : Option (List Char)) (hasInstructions : Bool)
    (genResult : Option String) (canned : String) (drawDur : Int)
    (s : DetectionState) : DetectionState × InboundOutcome :=
  match s.cooldown_until with
  | some u =>
    if now < u then (s, .ignored)
    else detectStep now text hasInstructions genResult canned drawDur
      { detection_count := 0, cooldown_until := none }
  | none => detectStep now text hasInstructions genResult canned drawDur s

/-! ## Response pipeline `_generate_and_send_response` (claim C8)

Modelled as the decision taken by the procedure: which message, if any, it
hands to `_send_message_with_delay`.  `AIModule.generate_response` catches
every exception internally and returns `None` on any failure, so its
outcome is an `Option String`.  `photoDownloadOk` stands for the
`client.download_media` call succeeding when the incoming message carries a
photo. -/

inductive ResponseOutcome
  | skippedNoInstructions
  | skippedPhotoError
  | sentGenerated (text : String)
  | sentCanned (text : String)
deriving DecidableEq

/-- `_generate_and_send_response`: abort before generating when base
instructions are missing, or when the incoming photo fails to download;
otherwise send the generated text when truthy and a random canned reply
when the generation result is falsy. -/
def generate_and_send_response (hasInstructions : Bool) (photoAttached : Bool)
    (photoDownloadOk : Bool) (genResult : Option String) (canned : String) :
    ResponseOutcome :=
  if ¬ hasInstructions then .skippedNoInstructions
  else if photoAttached ∧ ¬ photoDownloadOk then .skippedPhotoError
  else
    match genResult with
    | some t => if t = "" then .sentCanned canned else .sentGenerated t
    | none => .sentCanned canned

/-! ## Initiation gate `_try_initiate_conversation` (claim C9)

The gate decides whether a chosen thread actually gets an opener: skip when
the thread has messages and the last one is younger than
`MIN_TIME_BEFORE_INITIATION_HOURS = 12` hours, and skip when this engine's
own last initiation in the thread (`_last_initiated_time`) is younger than
`MIN_INTERVAL_BETWEEN_AI_INITIATION = timedelta(days=1)`.  Times are epoch
seconds. -/

def MIN_TIME_BEFORE_INITIATION : Int := 12 * 3600

def MIN_INTERVAL_BETWEEN_AI_INITIATION : Int := 24 * 3600

/-- `_try_initiate_conversation` up to the decision to generate and send:
`true` iff the opener generation is reached. -/
def try_initiate_proceeds (now : Int) (messages : List MessageRecord)
    (lastInitiated : Option Int) : Bool :=
  let recentMsg :=
    match messages.getLast? with
    | some m => decide (now - m.timestamp < MIN_TIME_BEFORE_INITIATION)
    | none => false
  if recentMsg then false
  else
    match lastInitiated with
    | some t => decide (¬ (now - t < MIN_INTERVAL_BETWEEN_AI_INITIATION))
    | none => true

/-! ## Concrete records used by counterexamples and witnesses -/

/-- A message whose id is `0`: Python's `msg_id and msg_id > 0` guard is
false for it, so the duplicate check is skipped. -/
def msgZero : MessageRecord :=
  { message_id := 0, sender := "Contact", timestamp := 100, text := "привет"
    is_forward := false, forward_source := none, reply_to_message_id := none
    media_attached := false, photo_attached := false }

/-- A message with an ordinary positive id. -/
def msgFive : MessageRecord :=
  { msgZero with message_id := 5 }

/-- A message stamped at epoch second `0`, for the initiation-gate
witness. -/
def msgZeroTs : MessageRecord :=
  { msgZero with message_id := 7, timestamp := 0 }

/-- A record whose aggregate counters are non-zero while the message list is
empty — the shape `load_chat_history` produces when the persisted
`messages` field is damaged but `aggregated_stats` survives. -/
def recNoMessages : ChatHistory :=
  { chat_id := 1, chat_title := "t"
    aggregated_stats := { zeroStats with text := 1 }, messages := [] }

/-- A record with one stored text message. -/
def recOneMessage : ChatHistory :=
  { chat_id := 1, chat_title := "t"
    aggregated_stats := { zeroStats with text := 1 }, messages := [msgFive] }

/-! ## Claim C6 — `load_chat_history` on missing or corrupt files -/

/-- C6: `load_chat_history` is a total function of the stored-file state —
no exception escapes it.  On a missing file it returns the well-formed
empty default record (no messages, all counters zero, the `Unknown Chat`
title); on a corrupt file it returns the same default record except that
the title is marked `Error Loading Chat <id>`. -/
theorem load_chat_history_missing_corrupt (chatId : Int) :
    load_chat_history chatId .missing = defaultStructure chatId ∧
    (defaultStructure chatId).messages = [] ∧
    (defaultStructure chatId).aggregated_stats = zeroStats ∧
    load_chat_history chatId .corrupt =
      { defaultStructure chatId with
          chat_title := "Error Loading Chat " ++ toString chatId } :=
  ⟨rfl, rfl, rfl, rfl⟩

/-- C6 witness: the load behaviour at the concrete thread id `42`. -/
theorem load_chat_history_missing_corrupt_witness :
    load_chat_history 42 .missing = defaultStructure 42 ∧
    (defaultStructure 42).messages = [] ∧
    (defaultStructure 42).aggregated_stats = zeroStats ∧
    load_chat_history 42 .corrupt =
      { defaultStructure 42 with
          chat_title := "Error Loading Chat " ++ toString (42 : Int) } :=
  load_chat_history_missing_corrupt 42

/-! ## Claim C7 — idempotence of `append_message_to_history` by message id -/

/-- C7 counterexample: appending a message whose id (here `0`) already
occurs is NOT always a no-op — the duplicate guard only runs for strictly
positive ids, so a second append of the id-`0` message changes the stored
record. -/
theorem append_idzero_not_idempotent :
    append_message_to_history
        (append_message_to_history (defaultStructure 1) msgZero) msgZero ≠
      append_message_to_history (defaultStructure 1) msgZero := by
  decide

/-- C7 amended: for messages with a strictly positive id, appending when
the id already occurs in the stored record is a no-op that leaves the
record unchanged. -/
theorem append_positive_id_idempotent (hist : ChatHistory) (msg : MessageRecord)
    (hpos : 0 < msg.message_id)
    (hmem : ∃ m ∈ hist.messages, m.message_id = msg.message_id) :
    append_message_to_history hist msg = hist := by
  unfold append_message_to_history
  rw [if_pos]
  refine ⟨hpos, ?_⟩
  obtain ⟨m, hm, he⟩ := hmem
  exact List.any_eq_true.mpr ⟨m, hm, by simp [he]⟩

/-- C7 witness: the amended no-op at a concrete record containing a
message with id `5`. -/
theorem append_positive_id_idempotent_witness :
    (0 < msgFive.message_id ∧
      ∃ m ∈ (append_message_to_history (defaultStructure 1) msgFive).messages,
        m.message_id = msgFive.message_id) ∧
    append_message_to_history
        (append_message_to_history (defaultStructure 1) msgFive) msgFive =
      append_message_to_history (defaultStructure 1) msgFive :=
  ⟨⟨by decide, ⟨msgFive, by decide, rfl⟩⟩,
    append_positive_id_idempotent _ _ (by decide) ⟨msgFive, by decide, rfl⟩⟩

/-! ## Claim C2 — store counters and id uniqueness after appends -/

/-- One append preserves uniqueness of the strictly positive ids. -/
theorem append_preserves_uniquePosIds (hist : ChatHistory) (msg : MessageRecord)
    (hu : UniquePosIds hist) : UniquePosIds (append_message_to_history hist msg) := by
  unfold append_message_to_history
  by_cases hg : 0 < msg.message_id ∧
      hist.messages.any (fun m => m.message_id == msg.message_id)
  · rw [if_pos hg]; exact hu
  · rw [if_neg hg]
    intro k hk
    simp only [List.filter_append, List.length_append]
    by_cases hid : msg.message_id = k
    · have hnone : (hist.messages.filter (fun m => m.message_id == k)).length = 0 := by
        rw [List.length_eq_zero, List.filter_eq_nil_iff]
        intro m hm
        simp only [beq_iff_eq]
        intro hmk
        exact hg ⟨hid ▸ hk, List.any_eq_true.mpr ⟨m, hm, by simp [hmk, hid]⟩⟩
      simp [hnone, List.filter, hid]
    · have hbeq : (msg.message_id == k) = false := by simp [hid]
      have hone : (([msg] : List MessageRecord).filter (fun m => m.message_id == k)).length = 0 := by
        simp [List.filter, hbeq]
      rw [hone, Nat.add_zero]
      exact hu k hk

theorem append_preserves_counters (hist : ChatHistory) (msg : MessageRecord)
    (hc : CountersOk hist) : CountersOk (append_message_to_history hist msg) := by
  unfold append_message_to_history
  by_cases hg : 0 < msg.message_id ∧
      hist.messages.any (fun m => m.message_id == msg.message_id)
  · rw [if_pos hg]; exact hc
  · rw [if_neg hg]
    obtain ⟨ht, hp⟩ := hc
    constructor
    · simp only [textCount, List.filter_append, List.length_append]
      by_cases htxt : msg.text ≠ "" <;>
        by_cases hph : msg.photo_attached <;>
          simp [textCount, htxt, hph, List.filter, ht]
    · simp only [photoCount, List.filter_append, List.length_append]
      by_cases htxt : msg.text ≠ "" <;>
        by_cases hph : msg.photo_attached <;>
          simp [photoCount, htxt, hph, List.filter, hp]

/-- The untouched counters: `append_message_to_history` never changes the
`video`, `voice` and `other_media` counters. -/
theorem append_preserves_other_counters (hist : ChatHistory) (msg : MessageRecord) :
    (append_message_to_history hist msg).aggregated_stats.video =
        hist.aggregated_stats.video ∧
      (append_message_to_history hist msg).aggregated_stats.voice =
        hist.aggregated_stats.voice ∧
      (append_message_to_history hist msg).aggregated_stats.other_media =
        hist.aggregated_stats.other_media := by
  unfold append_message_to_history
  by_cases hg : 0 < msg.message_id ∧
      hist.messages.any (fun m => m.message_id == msg.message_id)
  · rw [if_pos hg]; exact ⟨rfl, rfl, rfl⟩
  · rw [if_neg hg]
    by_cases htxt : msg.text ≠ "" <;>
      by_cases hph : msg.photo_attached <;>
        simp [htxt, hph]

/-- C2 counterexample: two appends of the id-`0` message `msgZero` leave
the stored record with two messages carrying the same message id — the
duplicate-id guard only covers strictly positive ids
(`if msg_id and msg_id > 0`). -/
theorem append_duplicate_zero_id :
    ¬ ((append_message_to_history
          (append_message_to_history (defaultStructure 1) msgZero)
          msgZero).messages.map (fun m => m.message_id)).Nodup := by
  decide

/-- C2 amended: after any sequence of appends starting from the default
empty record, (a) no strictly positive message id occurs twice, (b) the
`text` counter equals the number of stored messages with non-empty text and
the `photo` counter the number of stored messages with `photo_attached` —
the two kinds the append path maintains — and (c) the `video`, `voice` and
`other_media` counters are never touched by appends and stay `0`. -/
theorem append_fold_invariants (chatId : Int) (msgs : List MessageRecord) :
    UniquePosIds (msgs.foldl append_message_to_history (defaultStructure chatId)) ∧
    CountersOk (msgs.foldl append_message_to_history (defaultStructure chatId)) ∧
    (msgs.foldl append_message_to_history
        (defaultStructure chatId)).aggregated_stats.video = 0 ∧
    (msgs.foldl append_message_to_history
        (defaultStructure chatId)).aggregated_stats.voice = 0 ∧
    (msgs.foldl append_message_to_history
        (defaultStructure chatId)).aggregated_stats.other_media = 0 := by
  suffices h : ∀ (l : List MessageRecord) (h0 : ChatHistory),
      UniquePosIds h0 → CountersOk h0 →
      h0.aggregated_stats.video = 0 → h0.aggregated_stats.voice = 0 →
      h0.aggregated_stats.other_media = 0 →
      UniquePosIds (l.foldl append_message_to_history h0) ∧
        CountersOk (l.foldl append_message_to_history h0) ∧
        (l.foldl append_message_to_history h0).aggregated_stats.video = 0 ∧
        (l.foldl append_message_to_history h0).aggregated_stats.voice = 0 ∧
        (l.foldl append_message_to_history h0).aggregated_stats.other_media = 0 by
    refine h msgs (defaultStructure chatId) ?_ ?_ rfl rfl rfl
    · intro k _
      simp [defaultStructure, UniquePosIds]
    · exact ⟨rfl, rfl⟩
  intro l
  induction l with
  | nil => intro h0 h1 h2 h3 h4 h5; exact ⟨h1, h2, h3, h4, h5⟩
  | cons m rest ih =>
    intro h0 h1 h2 h3 h4 h5
    have hother := append_preserves_other_counters h0 m
    exact ih (append_message_to_history h0 m)
      (append_preserves_uniquePosIds h0 m h1)
      (append_preserves_counters h0 m h2)
      (hother.1.trans h3) (hother.2.1.trans h4) (hother.2.2.trans h5)

/-- C2 witness: the fold invariants applied to a concrete two-message
append sequence, with the positive-id hypothesis of `UniquePosIds`
discharged at id `5`. -/
theorem append_fold_invariants_witness :
    (0 < (5 : Int) ∧
      (([msgFive, msgZero].foldl append_message_to_history
          (defaultStructure 1)).messages.filter
            (fun m => m.message_id == (5 : Int))).length ≤ 1) ∧
    CountersOk ([msgFive, msgZero].foldl append_message_to_history
      (defaultStructure 1)) :=
  ⟨⟨by decide, (append_fold_invariants 1 [msgFive, msgZero]).1 5 (by decide)⟩,
    (append_fold_invariants 1 [msgFive, msgZero]).2.1⟩

/-! ## Claim C1 — detection / cooldown state machine -/

/-- C1: behaviour of the per-thread detection state machine.
(1) While a cooldown is active (`now < until`) every inbound event is
ignored and the state is unchanged.  (2) The first event with
`now ≥ until` pops the cooldown and the detection counter and processes the
event against the reset state.  (3) While not suppressed, a text message
containing a detection keyword increments the detection counter; with the
incremented count `n ≤ 3` (`AI_DETECTION_ATTEMPTS`) the thread stays
un-suppressed and a deflection reply is sent (the generated text, or a
random canned reply when generation fails); with `n > 3` the cooldown
deadline is set to `now + drawDur` — `drawDur` being the drawn
`uniform(min, max hours)` duration — and the operator notification is
emitted (the `suppressed` outcome).  (4) A text without keywords, or a
non-text event, falls through to ordinary handling. -/
theorem detection_state_machine (now drawDur : Int) (text : Option (List Char))
    (hasInstructions : Bool) (genResult : Option String) (canned : String)
    (s : DetectionState) :
    (∀ u, s.cooldown_until = some u → now < u →
      handleInbound now text hasInstructions genResult canned drawDur s =
        (s, .ignored)) ∧
    (∀ u, s.cooldown_until = some u → u ≤ now →
      handleInbound now text hasInstructions genResult canned drawDur s =
        detectStep now text hasInstructions genResult canned drawDur
          { detection_count := 0, cooldown_until := none }) ∧
    (∀ t, s.cooldown_until = none → text = some t → detectionTriggered t = true →
      (s.detection_count + 1 ≤ AI_DETECTION_ATTEMPTS →
        handleInbound now text hasInstructions genResult canned drawDur s =
          ({ s with detection_count := s.detection_count + 1 },
            .deflected (deflectionReply hasInstructions genResult canned))) ∧
      (AI_DETECTION_ATTEMPTS < s.detection_count + 1 →
        handleInbound now text hasInstructions genResult canned drawDur s =
          ({ detection_count := s.detection_count + 1,
             cooldown_until := some (now + drawDur) },
            .suppressed (now + drawDur)))) ∧
    (∀ t, s.cooldown_until = none → text = some t → detectionTriggered t = false →
      handleInbound now text hasInstructions genResult canned drawDur s =
        (s, .proceeded)) ∧
    (s.cooldown_until = none → text = none →
      handleInbound now text hasInstructions genResult canned drawDur s =
        (s, .proceeded)) := by
  refine ⟨?_, ?_, ?_, ?_, ?_⟩
  · intro u hu hlt
    simp [handleInbound, hu, hlt]
  · intro u hu hle
    simp [handleInbound, hu, Int.not_lt.mpr hle]
  · intro t hnone htext hdet
    constructor
    · intro hle
      simp [handleInbound, hnone, htext, detectStep, hdet, hle]
    · intro hgt
      simp [handleInbound, hnone, htext, detectStep, hdet, Nat.not_le.mpr hgt]
  · intro t hnone htext hdet
    simp [handleInbound, hnone, htext, detectStep, hdet]
  · intro hnone htext
    simp [handleInbound, hnone, htext, detectStep]

/-- C1 witness: a run of the machine at concrete inputs — three keyword
messages deflect while staying un-suppressed, the fourth suppresses with
`until = now + drawDur`, an event before the deadline is ignored, and the
first event at the deadline is processed against the reset state. -/
theorem detection_state_machine_witness :
    ((⟨0, some 10⟩ : DetectionState).cooldown_until = some 10 ∧ (5 : Int) < 10 ∧
      handleInbound 5 (some "ты бот".data) true (some "не понял") "лол" 7
          ⟨0, some 10⟩ = (⟨0, some 10⟩, .ignored)) ∧
    ((10 : Int) ≤ 12 ∧
      handleInbound 12 (some "привет".data) true none "лол" 7 ⟨2, some 10⟩ =
        detectStep 12 (some "привет".data) true none "лол" 7 ⟨0, none⟩) ∧
    (detectionTriggered "ты бот".data = true ∧ 2 + 1 ≤ AI_DETECTION_ATTEMPTS ∧
      handleInbound 20 (some "ты бот".data) true (some "не понял") "лол" 7
          ⟨2, none⟩ = (⟨3, none⟩, .deflected "не понял")) ∧
    (AI_DETECTION_ATTEMPTS < 3 + 1 ∧
      handleInbound 20 (some "ты бот".data) true (some "не понял") "лол" 7
          ⟨3, none⟩ = (⟨4, some 27⟩, .suppressed 27)) :=
  ⟨⟨rfl, by decide,
      (detection_state_machine 5 7 (some "ты бот".data) true (some "не понял")
        "лол" ⟨0, some 10⟩).1 10 rfl (by decide)⟩,
    ⟨by decide,
      (detection_state_machine 12 7 (some "привет".data) true none
        "лол" ⟨2, some 10⟩).2.1 10 rfl (by decide)⟩,
    ⟨by decide, by decide,
      ((detection_state_machine 20 7 (some "ты бот".data) true (some "не понял")
        "лол" ⟨2, none⟩).2.2.1 "ты бот".data rfl rfl (by decide)).1 (by decide)⟩,
    ⟨by decide,
      ((detection_state_machine 20 7 (some "ты бот".data) true (some "не понял")
        "лол" ⟨3, none⟩).2.2.1 "ты бот".data rfl rfl (by decide)).2 (by decide)⟩⟩

/-! ## Claim C8 — canned-reply fallback in the response pipeline -/

/-- C8 counterexample: the response pipeline CAN silently skip a triggered
response — with base instructions missing it returns before generating, and
no canned reply is sent in place of the never-made language-model call.
(The failed-photo-download path `skippedPhotoError` behaves the same.) -/
theorem response_skipped_without_instructions :
    generate_and_send_response false false true none "лол" =
        .skippedNoInstructions ∧
      generate_and_send_response false false true none "лол" ≠
        .sentCanned "лол" ∧
      generate_and_send_response true true false none "лол" =
        .skippedPhotoError := by
  refine ⟨rfl, ?_, rfl⟩
  decide

/-- C8 amended: once the pipeline reaches the language-model call — base
instructions available and any attached photo downloaded — a response is
never skipped: a falsy generation result (`None` or empty) sends a random
canned reply in its place, and a truthy result sends the generated text. -/
theorem response_never_skipped_after_generation (photoAttached photoDownloadOk : Bool)
    (genResult : Option String) (canned : String)
    (hphoto : photoAttached = true → photoDownloadOk = true) :
    ((genResult = none ∨ genResult = some "") →
      generate_and_send_response true photoAttached photoDownloadOk genResult canned =
        .sentCanned canned) ∧
    (∀ t, genResult = some t → t ≠ "" →
      generate_and_send_response true photoAttached photoDownloadOk genResult canned =
        .sentGenerated t) ∧
    (generate_and_send_response true photoAttached photoDownloadOk genResult canned ≠
        .skippedNoInstructions ∧
      generate_and_send_response true photoAttached photoDownloadOk genResult canned ≠
        .skippedPhotoError) := by
  cases photoAttached with
  | false =>
    refine ⟨?_, ?_, ?_⟩
    · rintro (hg | hg) <;> simp [generate_and_send_response, hg]
    · intro t hg ht
      simp [generate_and_send_response, hg, ht]
    · cases hg : genResult with
      | none => simp [generate_and_send_response]
      | some t =>
        by_cases ht : t = "" <;> simp [generate_and_send_response, ht]
  | true =>
    have hok : photoDownloadOk = true := hphoto rfl
    subst hok
    refine ⟨?_, ?_, ?_⟩
    · rintro (hg | hg) <;> simp [generate_and_send_response, hg]
    · intro t hg ht
      simp [generate_and_send_response, hg, ht]
    · cases hg : genResult with
      | none => simp [generate_and_send_response]
      | some t =>
        by_cases ht : t = "" <;> simp [generate_and_send_response, ht]

/-- C8 witness: the amended guarantee at concrete inputs — a `None`
generation result with a photo successfully downloaded yields the canned
reply. -/
theorem response_never_skipped_witness :
    ((true = true → true = true) ∧ ((none : Option String) = none ∨ none = some "")) ∧
    generate_and_send_response true true true none "лол" = .sentCanned "лол" :=
  ⟨⟨fun h => h, Or.inl rfl⟩,
    (response_never_skipped_after_generation true true none "лол"
      (fun h => h)).1 (Or.inl rfl)⟩

/-! ## Claim C9 — initiation gating -/

/-- C9: the initiation attempt proceeds to generating and sending an opener
exactly when (the thread has no stored messages, or the time elapsed since
its last stored message has reached the 12-hour minimum quiet period) and
(the engine has not yet initiated in the thread, or the time elapsed since
its own last initiation has reached the 24-hour minimum spacing); in every
other case the attempt is skipped without sending.  "Exceeds" is read
inclusively (`elapsed ≥ minimum`), matching the code's
`if time_since < delta: return` and the spec's "once that period
elapses". -/
theorem initiation_gate (now : Int) (messages : List MessageRecord)
    (lastInitiated : Option Int) :
    try_initiate_proceeds now messages lastInitiated = true ↔
      ((messages = [] ∨ ∃ m, messages.getLast? = some m ∧
          MIN_TIME_BEFORE_INITIATION ≤ now - m.timestamp) ∧
        (lastInitiated = none ∨ ∃ t, lastInitiated = some t ∧
          MIN_INTERVAL_BETWEEN_AI_INITIATION ≤ now - t)) := by
  unfold try_initiate_proceeds
  cases hlast : messages.getLast? with
  | none =>
    have hempty : messages = [] := by
      rwa [List.getLast?_eq_none_iff] at hlast
    cases lastInitiated with
    | none => simp [hempty]
    | some t => simp [hempty, Int.not_lt]
  | some m =>
    have hne : messages ≠ [] := by
      intro h; subst h; simp [List.getLast?] at hlast
    cases lastInitiated with
    | none => simp [hne, hlast, Int.not_lt]
    | some t => simp [hne, hlast, Int.not_lt]

/-- C9 witness: with the last message 2 hours old the gate refuses (the
12-hour quiet period is not met); with it 13 hours old and no own
initiation in the last 24 hours, the gate proceeds. -/
theorem initiation_gate_witness :
    try_initiate_proceeds (2 * 3600) [msgZeroTs] none = false ∧
    try_initiate_proceeds (13 * 3600) [msgZeroTs] (some (-(12 * 3600))) = true :=
  ⟨by decide,
    (initiation_gate (13 * 3600) [msgZeroTs] (some (-(12 * 3600)))).mpr
      ⟨Or.inr ⟨msgZeroTs, rfl, by decide⟩, Or.inr ⟨-(12 * 3600), rfl, by decide⟩⟩⟩

/-! ## Claim C10 — `clear_cache` resets both caches -/

/-- C10: `clear_cache` empties the per-id score cache and resets the cached
interest-keyword set; the next `_get_persona_interests` call after a clear
re-derives the keywords from the base instructions it is given (and caches
the new set), whereas before a clear the previously parsed set is returned
unchanged regardless of the instructions supplied. -/
theorem clear_cache_resets (s : EloCacheState) (base : List Char)
    (hbase : base ≠ []) :
    (clear_cache s).elo_cache = [] ∧
    (clear_cache s).persona_interests = none ∧
    (get_persona_interests (clear_cache s) base).1 =
      extract_interests_from_instructions base ∧
    (get_persona_interests (clear_cache s) base).2.persona_interests =
      some (extract_interests_from_instructions base) ∧
    (∀ old, s.persona_interests = some old →
      (get_persona_interests s base).1 = old) := by
  refine ⟨rfl, rfl, ?_, ?_, ?_⟩
  · simp [get_persona_interests, clear_cache, hbase]
  · simp [get_persona_interests, clear_cache, hbase]
  · intro old hold
    simp [get_persona_interests, hold]

/-- C10 witness: clearing a cache that holds a stale keyword set, then
asking again with concrete base instructions, re-derives the keywords from
those instructions. -/
theorem clear_cache_resets_witness :
    ("Ключевые интересы: кино, спорт".data ≠ ([] : List Char)) ∧
    (get_persona_interests
        (clear_cache ⟨[(1, 0)], some ["музыка".data]⟩)
        "Ключевые интересы: кино, спорт".data).1 =
      extract_interests_from_instructions "Ключевые интересы: кино, спорт".data :=
  ⟨by decide,
    (clear_cache_resets ⟨[(1, 0)], some ["музыка".data]⟩
      "Ключевые интересы: кино, спорт".data (by decide)).2.2.1⟩

/-! ## Claim C5 — the interest bonus formula -/

theorem countWordMatches_nil (p : List Char) : countWordMatches p [] = 0 := by
  cases p with
  | nil => decide
  | cons c rest =>
    have hlen : ¬ (0 + (c :: rest).length ≤ ([] : List Char).length) := by simp
    simp [countWordMatches, scanCountAux, hlen]

theorem interestMatchCount_of_noTexts (interests : List (List Char))
    (msgs : List MessageRecord) (h : contactTexts msgs = []) :
    interestMatchCount interests msgs = 0 := by
  unfold interestMatchCount
  rw [h]
  apply List.sum_eq_zero
  intro x hx
  simp only [List.mem_map] at hx
  obtain ⟨kw, _, hkw⟩ := hx
  rw [← hkw]
  show countWordMatches kw (joinSpace []) = 0
  rw [show joinSpace [] = [] from rfl]
  exact countWordMatches_nil kw

/-- C5: the interest bonus always equals `min(100, 5 * matches)` where
`matches` is the total number of whole-word, case-insensitive keyword
occurrences over the joined text of the stored non-self messages (the
early-return branches of `_calculate_interest_bonus` coincide with the
formula because the match count is `0` there); in particular the bonus is
exactly `100` whenever the match count is at least `20`. -/
theorem interest_bonus_formula (msgs : List MessageRecord)
    (interests : List (List Char)) :
    interestBonus msgs interests =
        min 100 ((interestMatchCount interests msgs : ℝ) * 5) ∧
      (20 ≤ interestMatchCount interests msgs →
        interestBonus msgs interests = 100) := by
  have hmain : interestBonus msgs interests =
      min 100 ((interestMatchCount interests msgs : ℝ) * 5) := by
    unfold interestBonus
    by_cases hi : interests = []
    · have hz : interestMatchCount interests msgs = 0 := by
        simp [interestMatchCount, hi]
      rw [if_pos hi, hz]
      norm_num
    · rw [if_neg hi]
      by_cases hm : msgs = []
      · have hct : contactTexts msgs = [] := by simp [contactTexts, hm]
        have hz : interestMatchCount interests msgs = 0 :=
          interestMatchCount_of_noTexts _ _ hct
        rw [if_pos hm, hz]
        norm_num
      · rw [if_neg hm]
        by_cases hct : contactTexts msgs = []
        · have hz : interestMatchCount interests msgs = 0 :=
            interestMatchCount_of_noTexts _ _ hct
          rw [if_pos hct, hz]
          norm_num
        · rw [if_neg hct, min_comm]
  refine ⟨hmain, fun h20 => ?_⟩
  rw [hmain]
  apply min_eq_left
  have hc : (20 : ℝ) ≤ (interestMatchCount interests msgs : ℝ) := by
    exact_mod_cast h20
  linarith

/-- A non-self message whose text contains the keyword `a` twenty times. -/
def msgManyA : MessageRecord :=
  { msgZero with
    message_id := 9
    text := "a a a a a a a a a a a a a a a a a a a a" }

/-- C5 witness: twenty whole-word matches of the single keyword `a` clamp
the bonus to exactly `100`. -/
theorem interest_bonus_formula_witness :
    20 ≤ interestMatchCount ["a".data] [msgManyA] ∧
      interestBonus [msgManyA] ["a".data] = 100 :=
  ⟨by decide, (interest_bonus_formula [msgManyA] ["a".data]).2 (by decide)⟩

/-! ## Claim C4 — the score decomposition -/

theorem guardedLogTerm (w : ℝ) (c : ℕ) :
    (if 0 < c then w * Real.log ((c : ℝ) + 1) else 0) =
      w * Real.log ((c : ℝ) + 1) := by
  by_cases hc : 0 < c
  · rw [if_pos hc]
  · rw [if_neg hc]
    have hc0 : c = 0 := Nat.eq_zero_of_not_pos hc
    subst hc0
    simp

theorem history_score_eq_spec (stats : AggregatedStats) :
    historyScore Real.log stats = specHistoryScore Real.log stats := by
  unfold historyScore specHistoryScore
  rw [guardedLogTerm, guardedLogTerm, guardedLogTerm, guardedLogTerm,
    guardedLogTerm]

/-- C4 counterexample: on a record whose `text` counter is `1` while the
message list is empty, `calculate_elo` returns only the manual boost (`0`
here), but the claimed formula gives `0.5 * ln 2 ≠ 0` — the empty-messages
short-circuit ignores the counters. -/
theorem elo_formula_counterexample :
    calculate_elo Real.log recNoMessages false [] ≠
      specHistoryScore Real.log recNoMessages.aggregated_stats
        + interestBonus recNoMessages.messages []
        + manualBoost false := by
  have hL : calculate_elo Real.log recNoMessages false [] = 0 := by
    simp [calculate_elo, recNoMessages, manualBoost]
  have hR : specHistoryScore Real.log recNoMessages.aggregated_stats
      + interestBonus recNoMessages.messages [] + manualBoost false =
        0.5 * Real.log 2 := by
    rw [show recNoMessages.aggregated_stats = ⟨1, 0, 0, 0, 0⟩ from rfl,
      show recNoMessages.messages = [] from rfl]
    simp [specHistoryScore, interestBonus, manualBoost, Real.log_one]
    norm_num
  rw [hL, hR]
  have hlog : 0 < Real.log 2 := Real.log_pos (by norm_num)
  intro h
  nlinarith

/-- C4 amended: whenever the record has at least one stored message,
`calculate_elo` equals `historyScore + interestBonus + manualBoost` with
`historyScore = Σ weight(kind) * ln(count + 1)` over the aggregate counters
(weights text 0.5, photo 1.0, video 1.2, voice 1.5, other 0.2) and
`manualBoost = 500` exactly for priority chats; with no stored messages the
code returns the manual boost alone. -/
theorem elo_formula (hist : ChatHistory) (isPriority : Bool)
    (interests : List (List Char)) (hmsgs : hist.messages ≠ []) :
    calculate_elo Real.log hist isPriority interests =
      specHistoryScore Real.log hist.aggregated_stats
        + interestBonus hist.messages interests
        + manualBoost isPriority := by
  unfold calculate_elo
  rw [if_neg hmsgs, history_score_eq_spec]

/-- C4 witness: the amended decomposition at a concrete one-message
record. -/
theorem elo_formula_witness :
    recOneMessage.messages ≠ [] ∧
      calculate_elo Real.log recOneMessage true [] =
        specHistoryScore Real.log recOneMessage.aggregated_stats
          + interestBonus recOneMessage.messages []
          + manualBoost true :=
  ⟨by decide, elo_formula recOneMessage true [] (by decide)⟩

/-! ## Claim C3 — ranking for initiation

The analysis of `get_top_chat_for_initiation` proceeds by characterising
the Python dict of scores: with a deterministic per-id score, inserting the
ids in order produces the first-seen key list (`pyKeys`) with each key
paired to its score, `max(d, key=d.get)` returns the first key attaining
the maximal value, and the first-seen key order preserves `find?`. -/

section RankingDict

variable {α : Type}

/-- The effective score used by the ranking loop: a failure (`none`) counts
as `0`. -/
def effScore [Zero α] (score : Int → Option α) (i : Int) : α :=
  (score i).getD 0

/-- Adding a key to a Python dict's key sequence. -/
def addKey (ks : List Int) (k : Int) : List Int :=
  if k ∈ ks then ks else ks ++ [k]

/-- The key sequence of the dict after inserting `ids` in order. -/
def pyKeys (ks : List Int) : List Int → List Int
  | [] => ks
  | i :: rest => pyKeys (addKey ks i) rest

/-- First-some choice on options. -/
def orO (a b : Option Int) : Option Int :=
  match a with
  | some x => some x
  | none => b

theorem dictInsert_canonical (f : Int → α) (ks : List Int) (k : Int) :
    dictInsert (ks.map (fun i => (i, f i))) k (f k) =
      (addKey ks k).map (fun i => (i, f i)) := by
  unfold dictInsert addKey
  by_cases hk : k ∈ ks
  · have hany : ((ks.map (fun i => (i, f i))).any (fun p => p.1 == k)) = true :=
      List.any_eq_true.mpr ⟨(k, f k), List.mem_map.mpr ⟨k, hk, rfl⟩, by simp⟩
    rw [if_pos hany, if_pos hk, List.map_map]
    apply List.map_congr_left
    intro i _
    by_cases hik : i = k
    · subst hik; simp
    · simp [Function.comp, hik]
  · have hany : ((ks.map (fun i => (i, f i))).any (fun p => p.1 == k)) = false := by
      rw [List.any_eq_false]
      intro p hp
      obtain ⟨i, hi, rfl⟩ := List.mem_map.mp hp
      simp only [beq_iff_eq]
      intro hik
      exact hk (hik ▸ hi)
    rw [if_neg (by simp [hany]), if_neg hk, List.map_append]
    rfl

theorem buildScores_canonical [Zero α] (score : Int → Option α) (ids : List Int) :
    ∀ ks : List Int,
      buildScores score ids (ks.map (fun i => (i, effScore score i))) =
        (pyKeys ks ids).map (fun i => (i, effScore score i)) := by
  induction ids with
  | nil => intro ks; rfl
  | cons i rest ih =>
    intro ks
    show buildScores score rest
        (dictInsert (ks.map (fun j => (j, effScore score j))) i ((score i).getD 0)) =
      (pyKeys (addKey ks i) rest).map (fun j => (j, effScore score j))
    rw [show ((score i).getD 0) = effScore score i from rfl,
      dictInsert_canonical (effScore score) ks i]
    exact ih (addKey ks i)

theorem pyKeys_ext (ids : List Int) :
    ∀ ks : List Int, ∃ ext, pyKeys ks ids = ks ++ ext := by
  induction ids with
  | nil => intro ks; exact ⟨[], (List.append_nil ks).symm⟩
  | cons i rest ih =>
    intro ks
    obtain ⟨ext, hext⟩ := ih (addKey ks i)
    show ∃ e, pyKeys (addKey ks i) rest = ks ++ e
    by_cases hk : i ∈ ks
    · exact ⟨ext, by rw [hext]; simp [addKey, hk]⟩
    · exact ⟨i :: ext, by rw [hext]; simp [addKey, hk]⟩

theorem mem_pyKeys (ids : List Int) :
    ∀ (ks : List Int) (j : Int), j ∈ pyKeys ks ids ↔ j ∈ ks ∨ j ∈ ids := by
  induction ids with
  | nil => intro ks j; simp [pyKeys]
  | cons i rest ih =>
    intro ks j
    rw [show pyKeys ks (i :: rest) = pyKeys (addKey ks i) rest from rfl, ih]
    unfold addKey
    by_cases hk : i ∈ ks
    · rw [if_pos hk]
      simp only [List.mem_cons]
      constructor
      · rintro (h | h)
        · exact Or.inl h
        · exact Or.inr (Or.inr h)
      · rintro (h | h | h)
        · exact Or.inl h
        · exact Or.inl (h ▸ hk)
        · exact Or.inr h
    · rw [if_neg hk]
      simp only [List.mem_append, List.mem_singleton, List.mem_cons]
      tauto

theorem find?_append_orO (P : Int → Bool) :
    ∀ l₁ l₂ : List Int, (l₁ ++ l₂).find? P = orO (l₁.find? P) (l₂.find? P) := by
  intro l₁
  induction l₁ with
  | nil => intro l₂; simp [orO]
  | cons a l ih =>
    intro l₂
    by_cases h : P a
    · simp [List.find?_cons_of_pos, h, orO]
    · simp [List.find?_cons_of_neg, h, ih, orO]

theorem find?_eq_some_of_mem (P : Int → Bool) :
    ∀ (l : List Int) (i : Int), i ∈ l → P i = true → ∃ x, l.find? P = some x := by
  intro l
  induction l with
  | nil => intro i hi; cases hi
  | cons a l ih =>
    intro i hi hPi
    by_cases h : P a
    · exact ⟨a, by simp [List.find?_cons_of_pos, h]⟩
    · rcases List.mem_cons.mp hi with rfl | hm
      · exact absurd hPi h
      · obtain ⟨x, hx⟩ := ih i hm hPi
        exact ⟨x, by simp [List.find?_cons_of_neg, h, hx]⟩

theorem find?_pyKeys (P : Int → Bool) (ids : List Int) :
    ∀ ks : List Int, (pyKeys ks ids).find? P = orO (ks.find? P) (ids.find? P) := by
  induction ids with
  | nil =>
    intro ks
    show ks.find? P = orO (ks.find? P) none
    cases h : ks.find? P <;> simp [orO]
  | cons i rest ih =>
    intro ks
    rw [show pyKeys ks (i :: rest) = pyKeys (addKey ks i) rest from rfl, ih]
    unfold addKey
    by_cases hk : i ∈ ks
    · rw [if_pos hk]
      by_cases hPi : P i
      · obtain ⟨x, hx⟩ := find?_eq_some_of_mem P ks i hk hPi
        simp [hx, orO, List.find?_cons_of_pos, hPi]
      · simp [orO, List.find?_cons_of_neg, hPi]
    · rw [if_neg hk, find?_append_orO]
      cases hks : ks.find? P with
      | some x => simp [orO]
      | none =>
        by_cases hPi : P i
        · simp [orO, List.find?_cons_of_pos, hPi]
        · simp [orO, List.find?_cons_of_neg, hPi]

end RankingDict

section RankingArgmax

variable {α : Type} [LinearOrder α]

/-- The key selected by the strict-improvement fold of `dictArgmax`. -/
def pickKey (f : Int → α) (k0 : Int) (keys : List Int) : Int :=
  keys.foldl (fun b k => if f b < f k then k else b) k0

/-- The maximal value of `f` over `k0 :: rest`. -/
def maxScore (f : Int → α) (k0 : Int) (rest : List Int) : α :=
  rest.foldl (fun a k => max a (f k)) (f k0)

theorem init_le_foldl_max (f : Int → α) :
    ∀ (keys : List Int) (a : α), a ≤ keys.foldl (fun x k => max x (f k)) a := by
  intro keys
  induction keys with
  | nil => intro a; exact le_refl a
  | cons k rest ih =>
    intro a
    exact le_trans (le_max_left a (f k)) (ih (max a (f k)))

theorem mem_le_foldl_max (f : Int → α) :
    ∀ (keys : List Int) (a : α) (i : Int), i ∈ keys →
      f i ≤ keys.foldl (fun x k => max x (f k)) a := by
  intro keys
  induction keys with
  | nil => intro a i hi; cases hi
  | cons k rest ih =>
    intro a i hi
    rcases List.mem_cons.mp hi with rfl | hm
    · exact le_trans (le_max_right a (f i)) (init_le_foldl_max f rest (max a (f i)))
    · exact ih (max a (f k)) i hm

theorem foldl_max_attained (f : Int → α) :
    ∀ (keys : List Int) (a : α),
      keys.foldl (fun x k => max x (f k)) a = a ∨
        ∃ i ∈ keys, keys.foldl (fun x k => max x (f k)) a = f i := by
  intro keys
  induction keys with
  | nil => intro a; exact Or.inl rfl
  | cons k rest ih =>
    intro a
    rcases ih (max a (f k)) with h | ⟨i, hi, h⟩
    · rcases max_choice a (f k) with hm | hm
      · exact Or.inl (by rw [List.foldl_cons, h, hm])
      · exact Or.inr ⟨k, List.mem_cons_self k rest, by rw [List.foldl_cons, h, hm]⟩
    · exact Or.inr ⟨i, List.mem_cons_of_mem k hi, by rw [List.foldl_cons, h]⟩

theorem le_maxScore_of_mem (f : Int → α) (k0 : Int) (rest : List Int) :
    ∀ i ∈ k0 :: rest, f i ≤ maxScore f k0 rest := by
  intro i hi
  rcases List.mem_cons.mp hi with rfl | hm
  · exact init_le_foldl_max f rest (f i)
  · exact mem_le_foldl_max f rest (f k0) i hm

theorem maxScore_attained (f : Int → α) (k0 : Int) (rest : List Int) :
    ∃ i ∈ k0 :: rest, f i = maxScore f k0 rest := by
  rcases foldl_max_attained f rest (f k0) with h | ⟨i, hi, h⟩
  · exact ⟨k0, List.mem_cons_self k0 rest, h.symm⟩
  · exact ⟨i, List.mem_cons_of_mem k0 hi, h.symm⟩

theorem maxScore_eq_of_mem_iff (f : Int → α) (k0 : Int) (l₁ l₂ : List Int)
    (h : ∀ j, j ∈ k0 :: l₁ ↔ j ∈ k0 :: l₂) :
    maxScore f k0 l₁ = maxScore f k0 l₂ := by
  apply le_antisymm
  · obtain ⟨i, hi, hv⟩ := maxScore_attained f k0 l₁
    exact hv ▸ le_maxScore_of_mem f k0 l₂ i ((h i).mp hi)
  · obtain ⟨i, hi, hv⟩ := maxScore_attained f k0 l₂
    exact hv ▸ le_maxScore_of_mem f k0 l₁ i ((h i).mpr hi)

theorem foldl_best_map (f : Int → α) :
    ∀ (keys : List Int) (k0 : Int),
      ((keys.map (fun i => (i, f i))).foldl
          (fun best q => if best.2 < q.2 then q else best) (k0, f k0)) =
        (pickKey f k0 keys, f (pickKey f k0 keys)) := by
  intro keys
  induction keys with
  | nil => intro k0; rfl
  | cons k rest ih =>
    intro k0
    simp only [List.map_cons, List.foldl_cons, pickKey]
    rw [show (if (k0, f k0).2 < (k, f k).2 then (k, f k) else (k0, f k0)) =
        ((if f k0 < f k then k else k0), f (if f k0 < f k then k else k0)) from by
      by_cases h : f k0 < f k <;> simp [h]]
    exact ih (if f k0 < f k then k else k0)

theorem dictArgmax_canonical (f : Int → α) (k0 : Int) (keys : List Int) :
    dictArgmax ((k0 :: keys).map (fun i => (i, f i))) =
      some (pickKey f k0 keys, f (pickKey f k0 keys)) := by
  show some _ = _
  rw [foldl_best_map]

theorem pickKey_is_first_max (f : Int → α) :
    ∀ (keys : List Int) (k0 : Int),
      (k0 :: keys).find? (fun i => f i == maxScore f k0 keys) =
        some (pickKey f k0 keys) := by
  intro keys
  induction keys with
  | nil =>
    intro k0
    simp [pickKey, maxScore, List.find?_cons]
  | cons k rest ih =>
    intro k0
    have hstep : maxScore f k0 (k :: rest) =
        maxScore f (if f k0 < f k then k else k0) rest := by
      unfold maxScore
      simp only [List.foldl_cons]
      congr 1
      by_cases h : f k0 < f k
      · simp [h, max_eq_right (le_of_lt h)]
      · simp [h, max_eq_left (not_lt.mp h)]
    have hpick : pickKey f k0 (k :: rest) =
        pickKey f (if f k0 < f k then k else k0) rest := rfl
    rw [hpick]
    by_cases hlt : f k0 < f k
    · have hM : maxScore f k0 (k :: rest) = maxScore f k rest := by
        simpa [hlt] using hstep
      have hkM : f k ≤ maxScore f k rest := init_le_foldl_max f rest (f k)
      have h0M : (f k0 == maxScore f k rest) = false := by
        simp only [beq_eq_false_iff_ne, ne_eq]
        exact ne_of_lt (lt_of_lt_of_le hlt hkM)
      rw [hM, if_pos hlt]
      simp only [List.find?_cons, h0M]
      exact ih k
    · have hM : maxScore f k0 (k :: rest) = maxScore f k0 rest := by
        simpa [hlt] using hstep
      have h0le : f k0 ≤ maxScore f k0 rest := init_le_foldl_max f rest (f k0)
      have hIH := ih k0
      rw [hM, if_neg hlt]
      by_cases h0 : f k0 = maxScore f k0 rest
      · have hbeq : (f k0 == maxScore f k0 rest) = true := beq_iff_eq.mpr h0
        simp only [List.find?_cons, hbeq] at hIH ⊢
        exact hIH
      · have hbeq : (f k0 == maxScore f k0 rest) = false := by
          simpa using h0
        have hkne : (f k == maxScore f k0 rest) = false := by
          simp only [beq_eq_false_iff_ne, ne_eq]
          intro hkeq
          have hle2 : maxScore f k0 rest ≤ f k0 := by
            rw [← hkeq]
            exact not_lt.mp hlt
          exact h0 (le_antisymm h0le hle2)
        simp only [List.find?_cons, hbeq, hkne] at hIH ⊢
        exact hIH

end RankingArgmax

/-- C3: ranking a non-empty candidate list.  Every id is scored, a failure
counting as score `0` (`effScore`); `maxScore` is the maximum of those
effective scores (bounded-above and attained, the first two conjuncts);
when that maximum is `≤ 0` the ranking returns `none`, and otherwise it
returns the earliest id in the input list whose score equals the maximum —
the strict maximum when unique, first-seen order on ties. -/
theorem rank_top_chat {α : Type} [LinearOrder α] [Zero α]
    (score : Int → Option α) (k0 : Int) (rest : List Int) :
    (∀ i ∈ k0 :: rest, effScore score i ≤ maxScore (effScore score) k0 rest) ∧
    (∃ i ∈ k0 :: rest, effScore score i = maxScore (effScore score) k0 rest) ∧
    get_top_chat_for_initiation score (k0 :: rest) =
      (if maxScore (effScore score) k0 rest ≤ 0 then none
       else (k0 :: rest).find?
         (fun i => effScore score i == maxScore (effScore score) k0 rest)) := by
  set f := effScore score with hf
  refine ⟨le_maxScore_of_mem f k0 rest, maxScore_attained f k0 rest, ?_⟩
  have hne : (k0 :: rest) ≠ ([] : List Int) := by simp
  unfold get_top_chat_for_initiation
  rw [if_neg hne]
  have hbuild : buildScores score (k0 :: rest) [] =
      (pyKeys [] (k0 :: rest)).map (fun i => (i, f i)) := by
    simpa using buildScores_canonical score (k0 :: rest) []
  obtain ⟨ext, hext⟩ := pyKeys_ext rest [k0]
  have hpy : pyKeys [] (k0 :: rest) = k0 :: ext := by
    show pyKeys (addKey [] k0) rest = k0 :: ext
    rw [show addKey [] k0 = [k0] from rfl, hext]
    rfl
  rw [hbuild, hpy, dictArgmax_canonical]
  have hmemiff : ∀ j, j ∈ k0 :: ext ↔ j ∈ k0 :: rest := by
    intro j
    rw [← hpy, mem_pyKeys]
    simp
  have hMeq : maxScore f k0 ext = maxScore f k0 rest :=
    maxScore_eq_of_mem_iff f k0 ext rest hmemiff
  have hfind : (k0 :: rest).find? (fun i => f i == maxScore f k0 rest) =
      some (pickKey f k0 ext) := by
    have h1 := pickKey_is_first_max f ext k0
    rw [hMeq] at h1
    have h3 : (k0 :: ext).find? (fun i => f i == maxScore f k0 rest) =
        (k0 :: rest).find? (fun i => f i == maxScore f k0 rest) := by
      have h2 := find?_pyKeys (fun i => f i == maxScore f k0 rest) (k0 :: rest) []
      rw [hpy] at h2
      simpa [orO] using h2
    rw [← h3, h1]
  have hfv : f (pickKey f k0 ext) = maxScore f k0 rest := by
    have h := List.find?_some hfind
    simp only [beq_iff_eq] at h
    exact h
  show (if f (pickKey f k0 ext) ≤ 0 then none else some (pickKey f k0 ext)) =
      (if maxScore f k0 rest ≤ 0 then none
       else (k0 :: rest).find? (fun i => f i == maxScore f k0 rest))
  rw [hfind, hfv]

/-- C3 witness: a concrete three-candidate ranking — id `1` scores `3`,
id `2` fails (treated as `0`), id `3` scores `-5`; the maximum `3` is
positive, so the ranking returns id `1`. -/
theorem rank_top_chat_witness :
    get_top_chat_for_initiation
        (fun i => if i = 1 then some (3 : Int) else if i = 2 then none else some (-5))
        [1, 2, 3] = some 1 := by
  rw [(rank_top_chat
    (fun i => if i = 1 then some (3 : Int) else if i = 2 then none else some (-5))
    1 [2, 3]).2.2]
  decide

end Persona
